import Mathlib

/-!
Verification of the ableton-mcp client utilities.

This file gives a shallow embedding, in Lean 4, of the two Python scripts of
the repository:

* src/arrangement_player_example.py : the scene-triggering arrangement
  player (its `send_command` network client and its `run_arrangement`
  polling/scheduling loop), and
* src/test_ableton_mcp.py : the test harness (its `send_command` client,
  its `test` method, its `run_all_tests` sequence and the `main` exit code).

Network effects are made explicit: a run of a receive loop is driven by a
list of `RecvEvent`s (the successive outcomes of `s.recv` calls), and a run
of the arrangement player's polling loop is driven by a list of `Pos`
values (the successive results of `get_position()` polls).  Python's
`json.loads` is modelled by an executable recursive-descent parser
`jsonParse` over `List Char` (integers only, strings without escapes:
enough to be an honest model of the prefix/whole parsing behaviour the
read loops rely on), and the receive loops are additionally stated
parametrically in an arbitrary parse function.
-/

/-! ## Arrangement player: data model

`Cue` is one `(bar_number, scene_index, name)` tuple of an arrangement.
`Pos` is the pair of fields the player extracts from one
`get_song_position` response: `pos.get('current_bar', 0)` and
`pos.get('is_playing', False)`. -/

structure Cue where
  bar : Int
  scene : Int
  label : String
  deriving DecidableEq, Repr

structure Pos where
  current_bar : Int
  is_playing : Bool
  deriving DecidableEq, Repr

/-- How a run of `run_arrangement` ends:
* `Complete`   : the while condition `current_index < len(arrangement)`
                 became false (all cues fired);
* `Stopped`    : a poll reported `is_playing == False` and the loop hit
                 `break` (a normal, non-error exit in the code);
* `FeedPending`: the supplied finite poll feed was exhausted while the
                 loop would still be polling (the Python loop would simply
                 keep polling; no return value is modelled);
* `CrashEmpty` : the `IndexError` raised by `arrangement[0]` on an empty
                 arrangement. -/
inductive RunExit where
  | Complete
  | Stopped
  | FeedPending
  | CrashEmpty
  deriving DecidableEq, Repr

/-- An observable action of `run_arrangement`: the `start_playback()` call,
or one `fire_scene(...)` call (recorded with the cue it fired for). -/
inductive Ev where
  | startPlayback
  | fireScene (c : Cue)
  deriving DecidableEq, Repr

/-- The monitoring loop of `run_arrangement`
(src/arrangement_player_example.py lines 101-123), driven by the finite
feed of poll results:

    while current_index < len(arrangement):
        pos = get_position()
        current_bar = pos.get('current_bar', 0)
        is_playing = pos.get('is_playing', False)
        if not is_playing:
            break
        next_bar, next_scene, next_name = arrangement[current_index]
        if current_bar >= next_bar:
            fire_scene(next_scene)
            current_index += 1
        time.sleep(0.1)

Returns the list of cues fired by the loop, in order, and how the loop
ended.  The while guard `current_index < len(arrangement)` together with
the in-bounds access `arrangement[current_index]` is rendered as the
single lookup `arr[i]?`: `none` is exactly the guard being false (loop
over, `Complete`), `some c` is the guard being true with `c` the pending
cue the iteration reads. -/
def pollLoop (arr : List Cue) : Nat → List Pos → List Cue × RunExit
  | i, [] =>
    match arr[i]? with
    | none => ([], .Complete)
    | some _ => ([], .FeedPending)
  | i, p :: rest =>
    match arr[i]? with
    | none => ([], .Complete)
    | some c =>
      if p.is_playing then
        if p.current_bar ≥ c.bar then
          let r := pollLoop arr (i + 1) rest
          (c :: r.1, r.2)
        else
          pollLoop arr i rest
      else ([], .Stopped)

/-- The sort performed by `arrangement = sorted(arrangement, key=lambda x: x[0])`.
Python's `sorted` is stable; `List.insertionSort` with the non-strict key
comparison is a stable sort, hence extensionally equal to it. -/
def sortCues (l : List Cue) : List Cue :=
  l.insertionSort (fun a b => a.bar ≤ b.bar)

/-- `run_arrangement` (src/arrangement_player_example.py lines 83-123),
from the sort onward, as a trace of observable actions plus an exit
status: sort the arrangement, issue `start_playback()`, unconditionally
fire the first cue (`arrangement[0]` raises `IndexError` on an empty
list, modelled by `CrashEmpty`), then run the monitoring loop. -/
def run_arrangement (arrangement : List Cue) (feed : List Pos) :
    List Ev × RunExit :=
  match sortCues arrangement with
  | [] => ([.startPlayback], .CrashEmpty)
  | c :: tail =>
    (.startPlayback :: .fireScene c ::
       (pollLoop (c :: tail) 1 feed).1.map .fireScene,
     (pollLoop (c :: tail) 1 feed).2)

/-- If the monitoring loop exits `Complete`, the cues it fired are exactly
the pending cues `arr.drop i`, each once, in list order. -/
theorem pollLoop_complete_fired (arr : List Cue) :
    ∀ (feed : List Pos) (i : Nat),
      (pollLoop arr i feed).2 = .Complete →
      (pollLoop arr i feed).1 = arr.drop i := by
  intro feed
  induction feed with
  | nil =>
    intro i h
    simp only [pollLoop] at h ⊢
    cases harr : arr[i]? with
    | none =>
      simp only [harr]
      exact (List.drop_eq_nil_of_le (List.getElem?_eq_none_iff.mp harr)).symm
    | some c => simp [harr] at h
  | cons p rest ih =>
    intro i h
    simp only [pollLoop] at h ⊢
    cases harr : arr[i]? with
    | none =>
      simp only [harr]
      exact (List.drop_eq_nil_of_le (List.getElem?_eq_none_iff.mp harr)).symm
    | some c =>
      simp only [harr] at h ⊢
      by_cases hp : p.is_playing
      · simp only [if_pos hp] at h ⊢
        by_cases hb : p.current_bar ≥ c.bar
        · simp only [if_pos hb] at h ⊢
          rw [ih (i + 1) h]
          obtain ⟨hlt, hget⟩ := List.getElem?_eq_some.mp harr
          rw [← hget]
          exact List.cons_getElem_drop_succ
        · simp only [if_neg hb] at h ⊢
          exact ih i h
      · simp [hp] at h

/-- In any run of the monitoring loop the fired cues form a contiguous
initial segment of the pending cues (no pending cue is skipped over), and
at most one cue fires per poll (`k` is bounded by the number of polls). -/
theorem pollLoop_fired_prefix (arr : List Cue) :
    ∀ (feed : List Pos) (i : Nat),
      ∃ k, k ≤ feed.length ∧ (pollLoop arr i feed).1 = (arr.drop i).take k := by
  intro feed
  induction feed with
  | nil =>
    intro i
    refine ⟨0, Nat.le_refl 0, ?_⟩
    simp only [pollLoop]
    cases harr : arr[i]? <;> simp
  | cons p rest ih =>
    intro i
    simp only [pollLoop]
    cases harr : arr[i]? with
    | none => exact ⟨0, Nat.zero_le _, rfl⟩
    | some c =>
      by_cases hp : p.is_playing
      · simp only [if_pos hp]
        by_cases hb : p.current_bar ≥ c.bar
        · simp only [if_pos hb]
          obtain ⟨k, hk, hfired⟩ := ih (i + 1)
          refine ⟨k + 1, by simpa using Nat.succ_le_succ hk, ?_⟩
          obtain ⟨hlt, hget⟩ := List.getElem?_eq_some.mp harr
          rw [hfired, List.drop_eq_getElem_cons hlt, List.take_succ_cons, hget]
        · simp only [if_neg hb]
          obtain ⟨k, hk, hfired⟩ := ih i
          exact ⟨k, Nat.le_succ_of_le hk, hfired⟩
      · simp only [if_neg hp]
        exact ⟨0, Nat.zero_le _, rfl⟩

/-- A poll reporting `is_playing == False` halts the loop: the part of the
feed after the first such poll is never consumed, so it can be replaced by
anything without changing the run. -/
theorem pollLoop_stop_drops_tail (arr : List Cue) (p : Pos)
    (hp : p.is_playing = false) :
    ∀ (ps₁ : List Pos) (i : Nat) (ps₂ : List Pos),
      pollLoop arr i (ps₁ ++ p :: ps₂) = pollLoop arr i (ps₁ ++ [p]) := by
  intro ps₁
  induction ps₁ with
  | nil =>
    intro i ps₂
    simp only [List.nil_append, pollLoop]
    cases harr : arr[i]? with
    | none => rfl
    | some c => simp [hp]
  | cons q qs ih =>
    intro i ps₂
    simp only [List.cons_append, pollLoop, List.append_eq]
    cases harr : arr[i]? with
    | none => rfl
    | some c =>
      by_cases hq : q.is_playing
      · simp only [if_pos hq]
        by_cases hb : q.current_bar ≥ c.bar
        · rw [if_pos hb, if_pos hb, ih (i + 1) ps₂]
        · rw [if_neg hb, if_neg hb]
          exact ih i ps₂
      · simp [hq]

/-- No cue fires at or after the first `is_playing == False` poll: the
number of cues fired is bounded by the number of polls strictly before
it. -/
theorem pollLoop_stop_fired_le (arr : List Cue) (p : Pos)
    (hp : p.is_playing = false) :
    ∀ (ps₁ : List Pos) (i : Nat) (ps₂ : List Pos),
      (pollLoop arr i (ps₁ ++ p :: ps₂)).1.length ≤ ps₁.length := by
  intro ps₁
  induction ps₁ with
  | nil =>
    intro i ps₂
    simp only [List.nil_append, pollLoop]
    cases harr : arr[i]? with
    | none => exact Nat.le_refl 0
    | some c => simp [hp]
  | cons q qs ih =>
    intro i ps₂
    simp only [List.cons_append, pollLoop, List.append_eq]
    cases harr : arr[i]? with
    | none => exact Nat.zero_le _
    | some c =>
      by_cases hq : q.is_playing
      · simp only [if_pos hq]
        by_cases hb : q.current_bar ≥ c.bar
        · rw [if_pos hb]
          simpa using Nat.succ_le_succ (ih (i + 1) ps₂)
        · rw [if_neg hb]
          exact Nat.le_succ_of_le (ih i ps₂)
      · simp [hq]

/-- The cues fired in a trace of observable actions, in order. -/
def firedCues (t : List Ev) : List Cue :=
  t.filterMap fun e =>
    match e with
    | .fireScene c => some c
    | .startPlayback => none

theorem firedCues_fireScene_map (l : List Cue) :
    firedCues (l.map .fireScene) = l := by
  induction l with
  | nil => rfl
  | cons c cs ih => simpa [firedCues] using ih

instance : IsTotal Cue (fun a b => a.bar ≤ b.bar) :=
  ⟨fun a b => Int.le_total a.bar b.bar⟩

instance : IsTrans Cue (fun a b => a.bar ≤ b.bar) :=
  ⟨fun _ _ _ h₁ h₂ => Int.le_trans h₁ h₂⟩

/-- The sorted arrangement is nondecreasing in bar number. -/
theorem sortCues_pairwise_le (l : List Cue) :
    List.Pairwise (fun a b : Cue => a.bar ≤ b.bar) (sortCues l) :=
  List.sorted_insertionSort _ l

/-- Sorting permutes the arrangement (no cue added or lost). -/
theorem sortCues_perm (l : List Cue) : (sortCues l).Perm l :=
  List.perm_insertionSort _ l

/-- C2 (amended): for every cue sequence, if a run of `run_arrangement`
completes (which renders the claim's hypothesis that playback never stops
and the position eventually reaches every cue's bar), the fired cues are
exactly the sorted arrangement: each cue fires exactly once, in pointer
order, with nondecreasing bar numbers; strictly ascending additionally
requires the bar numbers to be pairwise distinct (the original claim's
unconditional strictness fails on duplicate bars, see the
counterexample). -/
theorem c2_amended (arrangement : List Cue) (feed : List Pos)
    (hc : (run_arrangement arrangement feed).2 = .Complete) :
    firedCues (run_arrangement arrangement feed).1 = sortCues arrangement
    ∧ (firedCues (run_arrangement arrangement feed).1).Perm arrangement
    ∧ List.Pairwise (fun a b : Cue => a.bar ≤ b.bar)
        (firedCues (run_arrangement arrangement feed).1)
    ∧ (List.Pairwise (fun a b : Cue => a.bar ≠ b.bar) arrangement →
       List.Pairwise (fun a b : Cue => a.bar < b.bar)
         (firedCues (run_arrangement arrangement feed).1)) := by
  have hmain : firedCues (run_arrangement arrangement feed).1 = sortCues arrangement := by
    cases h : sortCues arrangement with
    | nil =>
      simp only [run_arrangement, h] at hc
      exact RunExit.noConfusion hc
    | cons c tail =>
      simp only [run_arrangement, h] at hc ⊢
      have hfired := pollLoop_complete_fired (c :: tail) feed 1 hc
      simp only [firedCues, List.filterMap_cons]
      have h2 : firedCues ((pollLoop (c :: tail) 1 feed).1.map Ev.fireScene)
          = (pollLoop (c :: tail) 1 feed).1 := firedCues_fireScene_map _
      simp only [firedCues] at h2
      rw [h2, hfired]
      rfl
  refine ⟨hmain, ?_, ?_, ?_⟩
  · rw [hmain]
    exact sortCues_perm arrangement
  · rw [hmain]
    exact sortCues_pairwise_le arrangement
  · intro hdist
    rw [hmain]
    have hne : List.Pairwise (fun a b : Cue => a.bar ≠ b.bar) (sortCues arrangement) :=
      ((sortCues_perm arrangement).pairwise_iff
        (fun h => Ne.symm h)).mpr hdist
    exact ((sortCues_pairwise_le arrangement).and hne).imp
      (fun h => lt_of_le_of_ne h.1 h.2)

/-- C1 (counterexample): with cues at bars 1, 20 and 30 and polled
positions jumping from bar 10 straight to bar 50, the scheduler fires the
bar-20 cue (on the very poll that observed bar 50) and then the bar-30 cue
on the following poll: the bar-20 cue is not skipped and both overtaken
cues fire, contradicting the claim that only the latest overtaken cue
(bar 30) fires and bar 20 is silently dropped. -/
theorem c1_counterexample :
    run_arrangement
        [⟨1, 4, "INTRO"⟩, ⟨20, 0, "BUILD"⟩, ⟨30, 1, "DROP"⟩]
        [⟨10, true⟩, ⟨50, true⟩, ⟨50, true⟩]
      = ([.startPlayback, .fireScene ⟨1, 4, "INTRO"⟩,
          .fireScene ⟨20, 0, "BUILD"⟩, .fireScene ⟨30, 1, "DROP"⟩],
         .Complete)
    ∧ Ev.fireScene ⟨20, 0, "BUILD"⟩ ∈
        (run_arrangement
          [⟨1, 4, "INTRO"⟩, ⟨20, 0, "BUILD"⟩, ⟨30, 1, "DROP"⟩]
          [⟨10, true⟩, ⟨50, true⟩, ⟨50, true⟩]).1 := by
  constructor
  · rfl
  · decide

/-- C1 (amended): when the current bar overtakes several pending cues at
once, the scheduler fires at most one cue per poll - the earliest pending
cue first - and catches up on subsequent polls: in any run the fired cues
form a contiguous initial segment of the pending cues (no pending cue is
dropped while polls keep coming), bounded in number by the number of
polls.  Concretely, after the jump to bar 50 a single poll fires only
the bar-20 cue, and one more poll fires the bar-30 cue as well. -/
theorem c1_amended :
    (∀ (arr : List Cue) (i : Nat) (feed : List Pos),
        ∃ k, k ≤ feed.length ∧ (pollLoop arr i feed).1 = (arr.drop i).take k)
    ∧ pollLoop [⟨20, 0, "BUILD"⟩, ⟨30, 1, "DROP"⟩] 0 [⟨50, true⟩]
        = ([⟨20, 0, "BUILD"⟩], .FeedPending)
    ∧ pollLoop [⟨20, 0, "BUILD"⟩, ⟨30, 1, "DROP"⟩] 0 [⟨50, true⟩, ⟨50, true⟩]
        = ([⟨20, 0, "BUILD"⟩, ⟨30, 1, "DROP"⟩], .Complete) :=
  ⟨fun arr i feed => pollLoop_fired_prefix arr feed i, by decide, by decide⟩

/-- C2 (counterexample): the claim quantifies over every cue sequence, but
for two cues sharing bar 5 a completed run fires them in nondecreasing -
not strictly ascending - bar order. -/
theorem c2_counterexample :
    run_arrangement [⟨5, 1, "a"⟩, ⟨5, 2, "b"⟩] [⟨5, true⟩]
      = ([.startPlayback, .fireScene ⟨5, 1, "a"⟩, .fireScene ⟨5, 2, "b"⟩],
         .Complete)
    ∧ ¬ List.Pairwise (fun a b : Cue => a.bar < b.bar)
        (firedCues (run_arrangement [⟨5, 1, "a"⟩, ⟨5, 2, "b"⟩] [⟨5, true⟩]).1) := by
  constructor
  · rfl
  · decide

/-- C2 witness: the amended theorem evaluated on the spec's example
arrangement `[(1,4,Intro), (17,0,Build)]` with a poll at bar 17. -/
theorem c2_amended_witness :
    firedCues (run_arrangement [⟨1, 4, "Intro"⟩, ⟨17, 0, "Build"⟩] [⟨17, true⟩]).1
      = sortCues [⟨1, 4, "Intro"⟩, ⟨17, 0, "Build"⟩]
    ∧ (firedCues (run_arrangement [⟨1, 4, "Intro"⟩, ⟨17, 0, "Build"⟩] [⟨17, true⟩]).1).Perm
        [⟨1, 4, "Intro"⟩, ⟨17, 0, "Build"⟩]
    ∧ List.Pairwise (fun a b : Cue => a.bar ≤ b.bar)
        (firedCues (run_arrangement [⟨1, 4, "Intro"⟩, ⟨17, 0, "Build"⟩] [⟨17, true⟩]).1)
    ∧ (List.Pairwise (fun a b : Cue => a.bar ≠ b.bar) [⟨1, 4, "Intro"⟩, ⟨17, 0, "Build"⟩] →
       List.Pairwise (fun a b : Cue => a.bar < b.bar)
         (firedCues (run_arrangement [⟨1, 4, "Intro"⟩, ⟨17, 0, "Build"⟩] [⟨17, true⟩]).1)) :=
  c2_amended [⟨1, 4, "Intro"⟩, ⟨17, 0, "Build"⟩] [⟨17, true⟩] (by decide)

/-- C3 (confirmed): whenever a poll reports `is_playing == False`, the
monitoring loop exits at that poll: the rest of the feed is irrelevant (so
no further cue can fire), the number of fired cues is bounded by the polls
strictly before the stopping one, and the iteration that consumes the
stopping poll fires nothing and exits with the normal `Stopped` status
(the code's `break`), not an error. -/
theorem c3_stop_exits_loop (arr : List Cue) (p : Pos)
    (hp : p.is_playing = false) :
    (∀ (i : Nat) (ps₁ ps₂ : List Pos),
        pollLoop arr i (ps₁ ++ p :: ps₂) = pollLoop arr i (ps₁ ++ [p]))
    ∧ (∀ (i : Nat) (ps₁ ps₂ : List Pos),
        (pollLoop arr i (ps₁ ++ p :: ps₂)).1.length ≤ ps₁.length)
    ∧ (∀ (i : Nat) (ps : List Pos), i < arr.length →
        pollLoop arr i (p :: ps) = ([], .Stopped)) := by
  refine ⟨fun i ps₁ ps₂ => pollLoop_stop_drops_tail arr p hp ps₁ i ps₂,
          fun i ps₁ ps₂ => pollLoop_stop_fired_le arr p hp ps₁ i ps₂,
          fun i ps hi => ?_⟩
  simp [pollLoop, List.getElem?_eq_getElem hi, hp]

/-- C3 witness: the stop theorem evaluated on a concrete arrangement and
feed whose second poll reports `is_playing == False`. -/
theorem c3_witness :
    pollLoop [⟨1, 0, "a"⟩, ⟨9, 1, "b"⟩] 1
        ([⟨3, true⟩] ++ ⟨5, false⟩ :: [⟨50, true⟩])
      = pollLoop [⟨1, 0, "a"⟩, ⟨9, 1, "b"⟩] 1 ([⟨3, true⟩] ++ [⟨5, false⟩])
    ∧ (pollLoop [⟨1, 0, "a"⟩, ⟨9, 1, "b"⟩] 1
        ([⟨3, true⟩] ++ ⟨5, false⟩ :: [⟨50, true⟩])).1.length ≤ 1
    ∧ pollLoop [⟨1, 0, "a"⟩, ⟨9, 1, "b"⟩] 1 (⟨5, false⟩ :: [⟨50, true⟩])
      = ([], .Stopped) :=
  have h := c3_stop_exits_loop [⟨1, 0, "a"⟩, ⟨9, 1, "b"⟩] ⟨5, false⟩ rfl
  ⟨h.1 1 [⟨3, true⟩] [⟨50, true⟩],
   by simpa using h.2.1 1 [⟨3, true⟩] [⟨50, true⟩],
   h.2.2 1 [⟨50, true⟩] (by decide)⟩

/-- C9 (confirmed): on the empty cue sequence, `run_arrangement` issues
`start_playback` and then crashes with the `IndexError` of
`arrangement[0]` (`CrashEmpty`), firing no scene and never reaching the
`Complete` exit - for every poll feed. -/
theorem c9_empty_arrangement_crashes (feed : List Pos) :
    run_arrangement [] feed = ([Ev.startPlayback], RunExit.CrashEmpty)
    ∧ (∀ c : Cue, Ev.fireScene c ∉ (run_arrangement [] feed).1)
    ∧ (run_arrangement [] feed).2 ≠ RunExit.Complete := by
  have h0 : run_arrangement [] feed = ([Ev.startPlayback], RunExit.CrashEmpty) := rfl
  refine ⟨h0, ?_, ?_⟩
  · intro c hc
    rw [h0, List.mem_singleton] at hc
    exact Ev.noConfusion hc
  · rw [h0]
    exact fun h => RunExit.noConfusion h


/-- JSON values, as produced by the model of Python's `json.loads`. -/
inductive J where
  | null
  | bool (b : Bool)
  | num (n : Int)
  | str (s : List Char)
  | arr (elems : List J)
  | obj (members : List (List Char × J))

/-- JSON whitespace (the characters `json.loads` skips between tokens). -/
def isWs (c : Char) : Bool :=
  c = ' ' || c = '\t' || c = '\n' || c = '\r'

/-- Drop leading JSON whitespace. -/
def skipWs : List Char → List Char
  | [] => []
  | c :: rest => if isWs c then skipWs rest else c :: rest

/-- Parse the remainder of a JSON string after the opening quote, up to the
closing quote.  Modelling restriction: backslash escapes are not supported
(an escape makes the parse fail), which only narrows the set of accepted
documents. -/
def parseStringRest : List Char → Option (List Char × List Char)
  | [] => none
  | c :: rest =>
    if c = '"' then some ([], rest)
    else if c = '\\' then none
    else (parseStringRest rest).map fun p => (c :: p.1, p.2)

/-- Consume a run of decimal digits, accumulating their value. -/
def parseDigits : List Char → Nat → Nat × List Char
  | [], acc => (acc, [])
  | c :: rest, acc =>
    if c.isDigit then parseDigits rest (acc * 10 + (c.toNat - 48))
    else (acc, c :: rest)

/-- Parse a JSON integer literal (no leading zeros, as in JSON). -/
def parseNat : List Char → Option (Nat × List Char)
  | [] => none
  | c :: rest =>
    if c = '0' then
      match rest with
      | d :: _ => if d.isDigit then none else some (0, rest)
      | [] => some (0, [])
    else if c.isDigit then some (parseDigits rest (c.toNat - 48))
    else none

mutual

/-- Recursive-descent parser for a JSON value, modelling Python's
`json.loads`.  Modelling restriction: numbers are integers (no fractions
or exponents).  `fuel` bounds the recursion depth; `jsonParse` supplies
more fuel than any input can consume, so fuel exhaustion never decides a
parse. -/
def parseValue : Nat → List Char → Option (J × List Char)
  | 0, _ => none
  | fuel + 1, s =>
    match skipWs s with
    | 'n' :: 'u' :: 'l' :: 'l' :: rest => some (.null, rest)
    | 't' :: 'r' :: 'u' :: 'e' :: rest => some (.bool true, rest)
    | 'f' :: 'a' :: 'l' :: 's' :: 'e' :: rest => some (.bool false, rest)
    | '"' :: rest => (parseStringRest rest).map fun p => (.str p.1, p.2)
    | '-' :: rest => (parseNat rest).map fun p => (.num (-(p.1 : Int)), p.2)
    | '[' :: rest =>
      match skipWs rest with
      | ']' :: r => some (.arr [], r)
      | r => (parseElems fuel r).map fun p => (.arr p.1, p.2)
    | '{' :: rest =>
      match skipWs rest with
      | '}' :: r => some (.obj [], r)
      | r => (parseMembers fuel r).map fun p => (.obj p.1, p.2)
    | s₁ => (parseNat s₁).map fun p => (.num (p.1 : Int), p.2)

def parseElems : Nat → List Char → Option (List J × List Char)
  | 0, _ => none
  | fuel + 1, s =>
    match parseValue fuel s with
    | none => none
    | some (v, r₁) =>
      match skipWs r₁ with
      | ',' :: r₂ =>
        match parseElems fuel r₂ with
        | none => none
        | some (vs, r₃) => some (v :: vs, r₃)
      | ']' :: r₂ => some ([v], r₂)
      | _ => none

def parseMembers : Nat → List Char → Option (List (List Char × J) × List Char)
  | 0, _ => none
  | fuel + 1, s =>
    match skipWs s with
    | '"' :: r =>
      match parseStringRest r with
      | none => none
      | some (k, r₁) =>
        match skipWs r₁ with
        | ':' :: r₂ =>
          match parseValue fuel r₂ with
          | none => none
          | some (v, r₃) =>
            match skipWs r₃ with
            | ',' :: r₄ =>
              match parseMembers fuel r₄ with
              | none => none
              | some (ms, r₅) => some ((k, v) :: ms, r₅)
            | '}' :: r₄ => some ([(k, v)], r₄)
            | _ => none
        | _ => none
    | _ => none

end

/-- The model of `json.loads` on a whole document: parse one value and
require that only whitespace follows, as `json.loads` does. -/
def jsonParse (s : List Char) : Option J :=
  match parseValue (2 * s.length + 2) s with
  | some (v, rest) => if skipWs rest = [] then some v else none
  | none => none

/-- The outcome of one `s.recv(...)` call inside a `send_command` read
loop:
* `chunk data` : `recv` returned these bytes (`chunk []` is the empty
  result signalling that the peer closed the connection);
* `timeout`    : `recv` raised `socket.timeout`;
* `connError`  : `recv` raised another socket/OS error. -/
inductive RecvEvent where
  | chunk (data : List Char)
  | timeout
  | connError
  deriving DecidableEq, Repr

/-- What `send_command` in src/arrangement_player_example.py can raise:
`decodeError` is `json.JSONDecodeError`, `transportError` is any
socket/OS error. -/
inductive ClientError where
  | decodeError
  | transportError
  deriving DecidableEq, Repr

/-- The final `return json.loads(b''.join(chunks).decode())` of the
player's `send_command`: parse the whole buffer, raising a decode error if
it does not parse. -/
def finalParse (parse : List Char → Option J) (buf : List Char) :
    Except ClientError J :=
  match parse buf with
  | some v => .ok v
  | none => .error .decodeError

/-- The receive loop of `send_command` in
src/arrangement_player_example.py (lines 26-42), driven by the finite
feed of recv outcomes:

    chunks = []
    while True:
        try:
            chunk = s.recv(65536)
            if not chunk:
                break
            chunks.append(chunk)
            try:
                result = json.loads(b''.join(chunks).decode())
                s.close()
                return result
            except json.JSONDecodeError:
                continue
        except socket.timeout:
            break
    s.close()
    return json.loads(b''.join(chunks).decode())

`none` means the feed ended while the loop was still blocked in `recv`;
`some (.ok v)` is a normal return; `some (.error e)` is an uncaught
exception propagating to the caller.  Buffers are modelled at text level
(`List Char`), identifying `bytes` with the decoded text. -/
def recvLoopPlayer (parse : List Char → Option J) :
    List Char → List RecvEvent → Option (Except ClientError J)
  | _, [] => none
  | buf, .chunk c :: rest =>
    if c = [] then some (finalParse parse buf)
    else
      match parse (buf ++ c) with
      | some v => some (.ok v)
      | none => recvLoopPlayer parse (buf ++ c) rest
  | buf, .timeout :: _ => some (finalParse parse buf)
  | _, .connError :: _ => some (.error .transportError)

/-- The player's `send_command` from the point where the request has been
sent: its result is that of the receive loop started with an empty
buffer. -/
def send_command_player (parse : List Char → Option J)
    (events : List RecvEvent) : Option (Except ClientError J) :=
  recvLoopPlayer parse [] events

/-- The exceptions that can occur inside the `try` of the test harness's
`send_command` receive phase: `socket.timeout` from `recv`, another
socket/OS error from `recv`, or the `NameError` raised by
`return result` when the connection closed before any successful parse
left `result` unbound. -/
inductive PyExc where
  | socketTimeout
  | connectionError
  | nameError
  deriving DecidableEq, Repr

/-- The receive phase inside the `try` of `send_command` in
src/test_ableton_mcp.py (lines 31-45):

    response = b''
    while True:
        chunk = s.recv(8192)
        if not chunk:
            break
        response += chunk
        try:
            result = json.loads(response.decode('utf-8'))
            break
        except json.JSONDecodeError:
            continue
    s.close()
    return result

The loop exits either on a successful parse (`result` bound, returned) or
on a closed connection, in which case `return result` raises `NameError`
because a successful parse always exits the loop in its own iteration, so
`result` is unbound on the close path.  A timeout or socket error from
`recv` is an exception escaping the loop. -/
def recvLoopTester (parse : List Char → Option J) :
    List Char → List RecvEvent → Option (Except PyExc J)
  | _, [] => none
  | buf, .chunk c :: rest =>
    if c = [] then some (.error .nameError)
    else
      match parse (buf ++ c) with
      | some v => some (.ok v)
      | none => recvLoopTester parse (buf ++ c) rest
  | _, .timeout :: _ => some (.error .socketTimeout)
  | _, .connError :: _ => some (.error .connectionError)

/-- What the harness's `send_command` hands back to its caller: the parsed
response, or the error dict constructed by its blanket
`except Exception as e: return {"status": "error", "message": str(e)}`
handler. -/
inductive TesterResp where
  | ok (v : J)
  | errorDict (e : PyExc)

/-- The harness's `send_command` from the point where the request has been
sent: the whole receive phase runs inside `try`, and any exception is
caught and returned as an error dict.  It never raises. -/
def send_command_tester (parse : List Char → Option J)
    (events : List RecvEvent) : Option TesterResp :=
  (recvLoopTester parse [] events).map fun r =>
    match r with
    | .ok v => .ok v
    | .error e => .errorDict e

/-- A run of recv outcomes that keeps a read loop going: every event is a
nonempty chunk and the accumulated buffer never parses. -/
def noResolve (parse : List Char → Option J) : List Char → List RecvEvent → Prop
  | _, [] => True
  | buf, .chunk c :: rest =>
    c ≠ [] ∧ parse (buf ++ c) = none ∧ noResolve parse (buf ++ c) rest
  | _, .timeout :: _ => False
  | _, .connError :: _ => False

/-- The buffer accumulated after consuming the chunk events of a feed. -/
def chunksBuf : List Char → List RecvEvent → List Char
  | buf, [] => buf
  | buf, .chunk c :: rest => chunksBuf (buf ++ c) rest
  | buf, _ :: rest => chunksBuf buf rest

/-- A socket error during `recv` propagates out of the player's receive
loop as a transport error, whatever unresolved chunks preceded it. -/
theorem recvLoopPlayer_connError (parse : List Char → Option J) :
    ∀ (qs : List RecvEvent) (buf : List Char) (rest : List RecvEvent),
      noResolve parse buf qs →
      recvLoopPlayer parse buf (qs ++ .connError :: rest)
        = some (.error .transportError) := by
  intro qs
  induction qs with
  | nil => intro buf rest _; rfl
  | cons e es ih =>
    intro buf rest hnr
    match e with
    | .chunk c =>
      obtain ⟨hne, hparse, hnr'⟩ := hnr
      simp only [List.cons_append, recvLoopPlayer, if_neg hne, hparse]
      exact ih (buf ++ c) rest hnr'
    | .timeout => exact absurd hnr id
    | .connError => exact absurd hnr id

/-- If the connection closes while the accumulated buffer does not parse,
the player's final `json.loads` raises a decode error. -/
theorem recvLoopPlayer_closed_decodeError (parse : List Char → Option J) :
    ∀ (qs : List RecvEvent) (buf : List Char) (rest : List RecvEvent),
      noResolve parse buf qs →
      parse (chunksBuf buf qs) = none →
      recvLoopPlayer parse buf (qs ++ .chunk [] :: rest)
        = some (.error .decodeError) := by
  intro qs
  induction qs with
  | nil =>
    intro buf rest _ hfail
    rw [show chunksBuf buf [] = buf from rfl] at hfail
    simp [recvLoopPlayer, finalParse, hfail]
  | cons e es ih =>
    intro buf rest hnr hfail
    match e with
    | .chunk c =>
      obtain ⟨hne, hparse, hnr'⟩ := hnr
      simp only [List.cons_append, recvLoopPlayer, if_neg hne, hparse]
      exact ih (buf ++ c) rest hnr' hfail
    | .timeout => exact absurd hnr id
    | .connError => exact absurd hnr id

/-- If `recv` times out while the accumulated buffer does not parse, the
player's final `json.loads` raises a decode error. -/
theorem recvLoopPlayer_timeout_decodeError (parse : List Char → Option J) :
    ∀ (qs : List RecvEvent) (buf : List Char) (rest : List RecvEvent),
      noResolve parse buf qs →
      parse (chunksBuf buf qs) = none →
      recvLoopPlayer parse buf (qs ++ .timeout :: rest)
        = some (.error .decodeError) := by
  intro qs
  induction qs with
  | nil =>
    intro buf rest _ hfail
    simp only [List.nil_append, recvLoopPlayer, finalParse]
    rw [show chunksBuf buf [] = buf from rfl] at hfail
    rw [hfail]
  | cons e es ih =>
    intro buf rest hnr hfail
    match e with
    | .chunk c =>
      obtain ⟨hne, hparse, hnr'⟩ := hnr
      simp only [List.cons_append, recvLoopPlayer, if_neg hne, hparse]
      exact ih (buf ++ c) rest hnr' hfail
    | .timeout => exact absurd hnr id
    | .connError => exact absurd hnr id

/-- A socket error during `recv` escapes the harness's receive loop as an
exception (to be caught by the blanket handler). -/
theorem recvLoopTester_connError (parse : List Char → Option J) :
    ∀ (qs : List RecvEvent) (buf : List Char) (rest : List RecvEvent),
      noResolve parse buf qs →
      recvLoopTester parse buf (qs ++ .connError :: rest)
        = some (.error .connectionError) := by
  intro qs
  induction qs with
  | nil => intro buf rest _; rfl
  | cons e es ih =>
    intro buf rest hnr
    match e with
    | .chunk c =>
      obtain ⟨hne, hparse, hnr'⟩ := hnr
      simp only [List.cons_append, recvLoopTester, if_neg hne, hparse]
      exact ih (buf ++ c) rest hnr'
    | .timeout => exact absurd hnr id
    | .connError => exact absurd hnr id

/-- If the connection closes before any successful parse, the harness's
`return result` raises `NameError` (`result` was never bound). -/
theorem recvLoopTester_closed_nameError (parse : List Char → Option J) :
    ∀ (qs : List RecvEvent) (buf : List Char) (rest : List RecvEvent),
      noResolve parse buf qs →
      recvLoopTester parse buf (qs ++ .chunk [] :: rest)
        = some (.error .nameError) := by
  intro qs
  induction qs with
  | nil => intro buf rest _; rfl
  | cons e es ih =>
    intro buf rest hnr
    match e with
    | .chunk c =>
      obtain ⟨hne, hparse, hnr'⟩ := hnr
      simp only [List.cons_append, recvLoopTester, if_neg hne, hparse]
      exact ih (buf ++ c) rest hnr'
    | .timeout => exact absurd hnr id
    | .connError => exact absurd hnr id

/-- Every exception of the receive phase is caught by the harness's
blanket handler and returned as an error dict: the harness's
`send_command` never propagates an error to its caller. -/
theorem send_command_tester_catches (parse : List Char → Option J)
    (events : List RecvEvent) (e : PyExc)
    (h : recvLoopTester parse [] events = some (.error e)) :
    send_command_tester parse events = some (.errorDict e) := by
  simp [send_command_tester, h]

/-- Chunked-delivery equivalence for the player's receive loop: if no
strict prefix of the complete response parses, then any split of the
response into nonempty chunks makes the loop return exactly the parse of
the whole response. -/
theorem recvLoopPlayer_chunked (parse : List Char → Option J)
    (data : List Char) (v : J)
    (hpre : ∀ k, k < data.length → parse (data.take k) = none)
    (hv : parse data = some v) :
    ∀ (css : List (List Char)) (buf : List Char),
      buf ++ css.flatten = data → css ≠ [] → (∀ c ∈ css, c ≠ []) →
      recvLoopPlayer parse buf (css.map .chunk) = some (.ok v) := by
  intro css
  induction css with
  | nil => intro buf _ hne _; exact absurd rfl hne
  | cons c cs ih =>
    intro buf hjoin _ hall
    have hcne : c ≠ [] := hall c (List.mem_cons_self c cs)
    have h2 : (buf ++ c) ++ cs.flatten = data := by
      simpa [List.append_assoc] using hjoin
    simp only [List.map_cons, recvLoopPlayer, if_neg hcne]
    by_cases hcs : cs = []
    · subst hcs
      have hbc : buf ++ c = data := by simpa using h2
      rw [hbc, hv]
    · have hjne : cs.flatten ≠ [] := by
        intro hj
        rcases List.exists_mem_of_ne_nil cs hcs with ⟨x, hx⟩
        exact hall x (List.mem_cons_of_mem _ hx)
          (List.flatten_eq_nil_iff.mp hj x hx)
      have hlen : (buf ++ c).length < data.length := by
        rw [← h2]
        simp only [List.length_append]
        have := List.length_pos.mpr hjne
        omega
      have hnone : parse (buf ++ c) = none := by
        have hpref : data.take ((buf ++ c).length) = buf ++ c := by
          rw [← h2]
          exact List.take_left _ _
        rw [← hpref]
        exact hpre _ hlen
      rw [hnone]
      exact ih (buf ++ c) h2 hcs (fun x hx => hall x (List.mem_cons_of_mem _ hx))

/-- Chunked-delivery equivalence for the harness's receive loop (same
statement as for the player's). -/
theorem recvLoopTester_chunked (parse : List Char → Option J)
    (data : List Char) (v : J)
    (hpre : ∀ k, k < data.length → parse (data.take k) = none)
    (hv : parse data = some v) :
    ∀ (css : List (List Char)) (buf : List Char),
      buf ++ css.flatten = data → css ≠ [] → (∀ c ∈ css, c ≠ []) →
      recvLoopTester parse buf (css.map .chunk) = some (.ok v) := by
  intro css
  induction css with
  | nil => intro buf _ hne _; exact absurd rfl hne
  | cons c cs ih =>
    intro buf hjoin _ hall
    have hcne : c ≠ [] := hall c (List.mem_cons_self c cs)
    have h2 : (buf ++ c) ++ cs.flatten = data := by
      simpa [List.append_assoc] using hjoin
    simp only [List.map_cons, recvLoopTester, if_neg hcne]
    by_cases hcs : cs = []
    · subst hcs
      have hbc : buf ++ c = data := by simpa using h2
      rw [hbc, hv]
    · have hjne : cs.flatten ≠ [] := by
        intro hj
        rcases List.exists_mem_of_ne_nil cs hcs with ⟨x, hx⟩
        exact hall x (List.mem_cons_of_mem _ hx)
          (List.flatten_eq_nil_iff.mp hj x hx)
      have hlen : (buf ++ c).length < data.length := by
        rw [← h2]
        simp only [List.length_append]
        have := List.length_pos.mpr hjne
        omega
      have hnone : parse (buf ++ c) = none := by
        have hpref : data.take ((buf ++ c).length) = buf ++ c := by
          rw [← h2]
          exact List.take_left _ _
        rw [← hpref]
        exact hpre _ hlen
      rw [hnone]
      exact ih (buf ++ c) h2 hcs (fun x hx => hall x (List.mem_cons_of_mem _ hx))

/-- C4 (amended): in the arrangement player's `send_command`, a
malformed/incomplete response raises a decode error to the caller (on
close and on timeout) and a socket failure raises a transport error to
the caller, uncaught.  The test harness's `send_command`, by contrast,
catches every exception of its receive phase inside itself and returns a
normal `\x7b"status": "error", "message": str(e)\x7d` dict instead - in
particular a connection failure is caught and converted, never
propagated. -/
theorem c4_error_propagation :
    (∀ (parse : List Char → Option J) (qs rest : List RecvEvent) (buf : List Char),
        noResolve parse buf qs →
        recvLoopPlayer parse buf (qs ++ .connError :: rest)
          = some (.error .transportError))
    ∧ (∀ (parse : List Char → Option J) (qs rest : List RecvEvent) (buf : List Char),
        noResolve parse buf qs → parse (chunksBuf buf qs) = none →
        recvLoopPlayer parse buf (qs ++ .chunk [] :: rest)
          = some (.error .decodeError))
    ∧ (∀ (parse : List Char → Option J) (qs rest : List RecvEvent) (buf : List Char),
        noResolve parse buf qs → parse (chunksBuf buf qs) = none →
        recvLoopPlayer parse buf (qs ++ .timeout :: rest)
          = some (.error .decodeError))
    ∧ (∀ (parse : List Char → Option J) (events : List RecvEvent) (e : PyExc),
        recvLoopTester parse [] events = some (.error e) →
        send_command_tester parse events = some (.errorDict e))
    ∧ (∀ (parse : List Char → Option J) (qs rest : List RecvEvent),
        noResolve parse [] qs →
        send_command_tester parse (qs ++ .connError :: rest)
          = some (.errorDict .connectionError)) := by
  refine ⟨fun parse qs rest buf h => recvLoopPlayer_connError parse qs buf rest h,
          fun parse qs rest buf h hf => recvLoopPlayer_closed_decodeError parse qs buf rest h hf,
          fun parse qs rest buf h hf => recvLoopPlayer_timeout_decodeError parse qs buf rest h hf,
          fun parse events e h => send_command_tester_catches parse events e h,
          fun parse qs rest h => ?_⟩
  exact send_command_tester_catches parse _ _
    (recvLoopTester_connError parse qs [] rest h)

/-- C4 witness: the propagation theorem evaluated on concrete feeds built
from an unresolved chunk followed by each failure event. -/
theorem c4_witness :
    recvLoopPlayer jsonParse [] ([.chunk ['{']] ++ .connError :: [])
      = some (.error .transportError)
    ∧ recvLoopPlayer jsonParse [] ([.chunk ['{']] ++ .chunk [] :: [])
      = some (.error .decodeError)
    ∧ recvLoopPlayer jsonParse [] ([.chunk ['{']] ++ .timeout :: [])
      = some (.error .decodeError)
    ∧ send_command_tester jsonParse [.timeout]
      = some (.errorDict .socketTimeout)
    ∧ send_command_tester jsonParse ([.chunk ['{']] ++ .connError :: [])
      = some (.errorDict .connectionError) :=
  ⟨c4_error_propagation.1 jsonParse [.chunk ['{']] [] []
      ⟨by simp, rfl, trivial⟩,
   c4_error_propagation.2.1 jsonParse [.chunk ['{']] [] []
      ⟨by simp, rfl, trivial⟩ rfl,
   c4_error_propagation.2.2.1 jsonParse [.chunk ['{']] [] []
      ⟨by simp, rfl, trivial⟩ rfl,
   c4_error_propagation.2.2.2.1 jsonParse [.timeout] .socketTimeout rfl,
   c4_error_propagation.2.2.2.2 jsonParse [.chunk ['{']] []
      ⟨by simp, rfl, trivial⟩⟩

/-- C4 (counterexample): a connection failure during the harness's
`send_command` receive phase is an exception inside the loop, yet
`send_command` returns a normal error-dict value to its caller - the
error is caught inside `send_command`, contradicting the claim that
neither error kind is caught inside either client's `send_command`. -/
theorem c4_counterexample :
    recvLoopTester jsonParse [] [.connError] = some (.error .connectionError)
    ∧ send_command_tester jsonParse [.connError]
      = some (.errorDict .connectionError) :=
  ⟨rfl, rfl⟩

/-- C5 (amended): if the connection closes while the accumulated buffer is
empty or not valid JSON, the player's `send_command` raises a decode
error to its caller; the harness's `send_command` instead catches the
`NameError` of its unbound `result` and returns an error dict - a normal
return value, not a raised decode error. -/
theorem c5_closed_connection :
    (∀ (parse : List Char → Option J) (qs rest : List RecvEvent),
        noResolve parse [] qs → parse (chunksBuf [] qs) = none →
        send_command_player parse (qs ++ .chunk [] :: rest)
          = some (.error .decodeError))
    ∧ (∀ (parse : List Char → Option J) (qs rest : List RecvEvent),
        noResolve parse [] qs →
        send_command_tester parse (qs ++ .chunk [] :: rest)
          = some (.errorDict .nameError)) :=
  ⟨fun parse qs rest h hf =>
      recvLoopPlayer_closed_decodeError parse qs [] rest h hf,
   fun parse qs rest h =>
      send_command_tester_catches parse _ _
        (recvLoopTester_closed_nameError parse qs [] rest h)⟩

/-- C5 witness: the closed-connection theorem evaluated on a concrete
unparseable chunk followed by a close, and on an immediate close with an
empty buffer. -/
theorem c5_witness :
    send_command_player jsonParse ([.chunk ['n']] ++ .chunk [] :: [])
      = some (.error .decodeError)
    ∧ send_command_player jsonParse ([] ++ .chunk [] :: [])
      = some (.error .decodeError)
    ∧ send_command_tester jsonParse ([.chunk ['n']] ++ .chunk [] :: [])
      = some (.errorDict .nameError) :=
  ⟨c5_closed_connection.1 jsonParse [.chunk ['n']] [] ⟨by simp, rfl, trivial⟩ rfl,
   c5_closed_connection.1 jsonParse [] [] trivial rfl,
   c5_closed_connection.2 jsonParse [.chunk ['n']] [] ⟨by simp, rfl, trivial⟩⟩

/-- C5 (counterexample): when the connection closes with an unparseable or
empty buffer, the harness's `send_command` returns a value (the error
dict produced from the caught `NameError`) rather than raising a decode
error, contradicting the claim for that client. -/
theorem c5_counterexample :
    send_command_tester jsonParse [.chunk ['{'], .chunk []]
      = some (.errorDict .nameError)
    ∧ send_command_tester jsonParse [.chunk []]
      = some (.errorDict .nameError)
    ∧ send_command_player jsonParse [.chunk ['{'], .chunk []]
      = some (.error .decodeError) :=
  ⟨rfl, rfl, rfl⟩

/-- C6 (amended): for every response no strict prefix of which parses as
JSON (true of the object-shaped responses this protocol uses), both
`send_command` read loops return the same parsed value whether the bytes
arrive in one chunk or split across arbitrarily many nonempty chunks:
every chunking yields exactly the parse of the whole delivery.  The
original unrestricted claim fails for responses with a parseable strict
prefix, see the counterexample. -/
theorem c6_amended (parse : List Char → Option J) (data : List Char) (v : J)
    (css : List (List Char))
    (hpre : ∀ k, k < data.length → parse (data.take k) = none)
    (hv : parse data = some v)
    (hjoin : css.flatten = data) (hne : css ≠ []) (hall : ∀ c ∈ css, c ≠ []) :
    send_command_player parse (css.map .chunk) = some (.ok v)
    ∧ send_command_tester parse (css.map .chunk) = some (TesterResp.ok v)
    ∧ send_command_player parse [.chunk data] = some (.ok v)
    ∧ send_command_tester parse [.chunk data] = some (TesterResp.ok v) := by
  have hdata : data ≠ [] := by
    intro hd
    rcases List.exists_mem_of_ne_nil css hne with ⟨x, hx⟩
    exact hall x hx (List.flatten_eq_nil_iff.mp (hjoin.trans hd) x hx)
  have hjoin' : [] ++ css.flatten = data := by simp [hjoin]
  have h1 := recvLoopPlayer_chunked parse data v hpre hv css [] hjoin' hne hall
  have h2 := recvLoopTester_chunked parse data v hpre hv css [] hjoin' hne hall
  have hone' : [] ++ ([data] : List (List Char)).flatten = data := by simp
  have hall1 : ∀ c ∈ ([data] : List (List Char)), c ≠ [] := by
    intro c hc
    rw [List.mem_singleton.mp hc]
    exact hdata
  have h3 := recvLoopPlayer_chunked parse data v hpre hv [data] [] hone'
    (by simp) hall1
  have h4 := recvLoopTester_chunked parse data v hpre hv [data] [] hone'
    (by simp) hall1
  simp only [List.map_cons, List.map_nil] at h3 h4
  refine ⟨h1, ?_, h3, ?_⟩
  · simp [send_command_tester, h2]
  · simp [send_command_tester, h4]

/-- C6 witness: the chunking theorem evaluated on the response `null`
split as `nu` + `ll` and delivered whole, for both clients. -/
theorem c6_witness :
    send_command_player jsonParse
        (([['n','u'], ['l','l']] : List (List Char)).map RecvEvent.chunk)
      = some (.ok .null)
    ∧ send_command_tester jsonParse
        (([['n','u'], ['l','l']] : List (List Char)).map RecvEvent.chunk)
      = some (TesterResp.ok .null)
    ∧ send_command_player jsonParse [.chunk ['n','u','l','l']]
      = some (.ok .null)
    ∧ send_command_tester jsonParse [.chunk ['n','u','l','l']]
      = some (TesterResp.ok .null) :=
  c6_amended jsonParse ['n','u','l','l'] .null [['n','u'], ['l','l']]
    (by
      intro k hk
      have hk4 : k < 4 := by simpa using hk
      interval_cases k <;> rfl) rfl rfl (by simp) (by simp)

/-- C6 (counterexample): the byte sequence `12` is a complete JSON
response, but `1` is already valid JSON, so delivered as one chunk the
read loops return 12 while split as `1` + `2` they return 1 after the
first chunk - the same complete response parsed differently depending on
chunking, contradicting the unrestricted claim. -/
theorem c6_counterexample :
    jsonParse ['1'] = some (.num 1)
    ∧ jsonParse ['1', '2'] = some (.num 12)
    ∧ send_command_player jsonParse [.chunk ['1', '2']] = some (.ok (.num 12))
    ∧ send_command_player jsonParse [.chunk ['1'], .chunk ['2']]
      = some (.ok (.num 1))
    ∧ send_command_tester jsonParse [.chunk ['1', '2']]
      = some (TesterResp.ok (.num 12))
    ∧ send_command_tester jsonParse [.chunk ['1'], .chunk ['2']]
      = some (TesterResp.ok (.num 1))
    ∧ J.num 1 ≠ J.num 12 := by
  refine ⟨rfl, rfl, rfl, rfl, rfl, rfl, ?_⟩
  intro h
  injection h with h'
  omega

/-- The status field of one test-result record. -/
inductive TStatus where
  | passed
  | failed
  deriving DecidableEq, Repr

/-- One entry of `self.test_results`:
`\x7b'name': ..., 'status': ..., 'error': ...\x7d`. -/
structure TestRecord where
  name : String
  status : TStatus
  error : Option String
  deriving DecidableEq, Repr

/-- The mutable counters and result list of `AbletonMCPTester`
(src/test_ableton_mcp.py lines 14-19). -/
structure TesterState where
  tests_passed : Nat
  tests_failed : Nat
  test_results : List TestRecord
  deriving DecidableEq, Repr

/-- What evaluating `check_func(result)` does in one call of `test`:
there is no check function, it returns a boolean, or it raises. -/
inductive CheckEv where
  | noCheck
  | ok (b : Bool)
  | raises (msg : String)
  deriving DecidableEq, Repr

/-- What evaluating `cleanup_func(result)` does in one call of `test`:
there is no cleanup function, it returns normally, or it raises. -/
inductive CleanEv where
  | noCleanup
  | ok
  | raises (msg : String)
  deriving DecidableEq, Repr

/-- The environment of one call of the `test` method, determining which
path the method takes: whether `send_command` returned a
`status == 'error'` dict (with its message), what the check function does,
and what the cleanup function does.  (`send_command` itself never raises,
see `send_command_tester`, so these are the only degrees of freedom.) -/
structure TestInput where
  statusError : Option String
  check : CheckEv
  cleanup : CleanEv
  deriving DecidableEq, Repr

/-- The failure bookkeeping of `test`: `self.tests_failed += 1` and the
append of a failed record. -/
def recordFail (st : TesterState) (name msg : String) : TesterState :=
  ⟨st.tests_passed, st.tests_failed + 1,
   st.test_results ++ [⟨name, .failed, some msg⟩]⟩

/-- The pass bookkeeping of `test`: `self.tests_passed += 1` and the
append of a passed record. -/
def recordPass (st : TesterState) (name : String) : TesterState :=
  ⟨st.tests_passed + 1, st.tests_failed,
   st.test_results ++ [⟨name, .passed, none⟩]⟩

/-- The `test` method of `AbletonMCPTester`
(src/test_ableton_mcp.py lines 49-87): fail on a `status == 'error'`
response; fail if the check function raises (the blanket `except` path)
or returns false; otherwise record a pass, then run the cleanup function,
whose exception - caught by the same blanket `except` - records an
additional failure after the pass.  Returns the method's boolean result
and the updated state. -/
def test (st : TesterState) (name : String) (inp : TestInput) :
    Bool × TesterState :=
  match inp.statusError with
  | some msg => (false, recordFail st name msg)
  | none =>
    match inp.check with
    | .raises m => (false, recordFail st name m)
    | .ok false => (false, recordFail st name "Check function failed")
    | _ =>
      match inp.cleanup with
      | .raises m => (false, recordFail (recordPass st name) name m)
      | _ => (true, recordPass st name)

/-- A sequence of `test` calls from a fresh `AbletonMCPTester` state. -/
def runTests (inputs : List (String × TestInput)) : TesterState :=
  inputs.foldl (fun st p => (test st p.1 p.2).2) ⟨0, 0, []⟩

/-- The exit code of `main` (src/test_ableton_mcp.py line 406):
`sys.exit(0 if tester.tests_failed == 0 else 1)` after the given test
calls. -/
def mainExitCode (inputs : List (String × TestInput)) : Nat :=
  if (runTests inputs).tests_failed = 0 then 0 else 1

/-- The number of failed records in a result list. -/
def countFailed (l : List TestRecord) : Nat :=
  l.countP fun r => decide (r.status = TStatus.failed)

/-- One `test` call keeps `tests_failed` equal to the number of failed
records. -/
theorem test_failed_count (st : TesterState) (name : String) (inp : TestInput)
    (h : st.tests_failed = countFailed st.test_results) :
    (test st name inp).2.tests_failed
      = countFailed (test st name inp).2.test_results := by
  rcases inp with ⟨se, ch, cl⟩
  cases se with
  | some msg => simp [test, recordFail, countFailed, List.countP_append, h]
  | none =>
    cases ch with
    | raises m => simp [test, recordFail, countFailed, List.countP_append, h]
    | noCheck =>
      cases cl <;>
        simp [test, recordFail, recordPass, countFailed, List.countP_append, h]
    | ok b =>
      cases b with
      | false => simp [test, recordFail, countFailed, List.countP_append, h]
      | true =>
        cases cl <;>
          simp [test, recordFail, recordPass, countFailed, List.countP_append, h]

/-- After any sequence of `test` calls, `tests_failed` is the number of
failed records. -/
theorem runTests_failed_count (inputs : List (String × TestInput)) :
    (runTests inputs).tests_failed = countFailed (runTests inputs).test_results := by
  have main : ∀ (l : List (String × TestInput)) (st : TesterState),
      st.tests_failed = countFailed st.test_results →
      (l.foldl (fun st p => (test st p.1 p.2).2) st).tests_failed
        = countFailed (l.foldl (fun st p => (test st p.1 p.2).2) st).test_results := by
    intro l
    induction l with
    | nil => intro st h; exact h
    | cons p ps ih =>
      intro st h
      exact ih _ (test_failed_count st p.1 p.2 h)
  exact main inputs ⟨0, 0, []⟩ rfl

/-- C7 (confirmed): for every sequence of test calls, the harness exits
with code 0 iff every recorded test passed (`tests_failed == 0`), and
with code 1 iff some recorded test failed. -/
theorem c7_exit_code (inputs : List (String × TestInput)) :
    (mainExitCode inputs = 0 ↔
       ∀ r ∈ (runTests inputs).test_results, r.status = TStatus.passed)
    ∧ (mainExitCode inputs = 1 ↔
       ∃ r ∈ (runTests inputs).test_results, r.status = TStatus.failed) := by
  have hcount := runTests_failed_count inputs
  have hz : (runTests inputs).tests_failed = 0 ↔
      ∀ r ∈ (runTests inputs).test_results, r.status = TStatus.passed := by
    rw [hcount, countFailed, List.countP_eq_zero]
    constructor
    · intro h r hr
      have := h r hr
      cases hst : r.status with
      | passed => rfl
      | failed => simp [hst] at this
    · intro h r hr
      simp [h r hr]
  constructor
  · rw [mainExitCode]
    constructor
    · intro h
      by_cases hf : (runTests inputs).tests_failed = 0
      · exact hz.mp hf
      · simp [hf] at h
    · intro h
      simp [hz.mpr h]
  · rw [mainExitCode]
    constructor
    · intro h
      by_cases hf : (runTests inputs).tests_failed = 0
      · simp [hf] at h
      · rw [hcount, countFailed] at hf
        have hpos : 0 < (runTests inputs).test_results.countP
            fun r => decide (r.status = TStatus.failed) := Nat.pos_of_ne_zero hf
        obtain ⟨r, hr, hrr⟩ := List.countP_pos_iff.mp hpos
        exact ⟨r, hr, by simpa using hrr⟩
    · intro ⟨r, hr, hrr⟩
      have hf : (runTests inputs).tests_failed ≠ 0 := by
        rw [hcount, countFailed]
        intro h0
        have := List.countP_eq_zero.mp h0 r hr
        simp [hrr] at this
      simp [hf]

/-- C10 (counterexample): a `test` call whose cleanup function raises
after the pass bookkeeping increments BOTH counters and appends TWO
records (a passed one, then a failed one), contradicting the claim that
every call increments exactly one counter by one and appends exactly one
record. -/
theorem c10_counterexample :
    test ⟨0, 0, []⟩ "Create MIDI track" ⟨none, .noCheck, .raises "boom"⟩
      = (false, ⟨1, 1, [⟨"Create MIDI track", .passed, none⟩,
                        ⟨"Create MIDI track", .failed, some "boom"⟩]⟩)
    ∧ (test ⟨0, 0, []⟩ "Create MIDI track"
        ⟨none, .noCheck, .raises "boom"⟩).2.test_results.length = 2 :=
  ⟨rfl, rfl⟩

/-- C10 (amended): every call of the `test` method appends one record -
two (a passed then a failed one) exactly when the cleanup callback raises
after the pass bookkeeping - and increments `tests_passed + tests_failed`
by exactly the number of appended records, so after any sequence of calls
`tests_passed + tests_failed = len(test_results)` still holds; `test`
returns `True` iff the last record it appended has status passed. -/
theorem c10_amended :
    (∀ (st : TesterState) (name : String) (inp : TestInput),
       ∃ (new : List TestRecord) (r : TestRecord),
         (test st name inp).2.test_results = st.test_results ++ new
         ∧ new.getLast? = some r
         ∧ (test st name inp).2.tests_passed + (test st name inp).2.tests_failed
             = st.tests_passed + st.tests_failed + new.length
         ∧ ((test st name inp).1 = true ↔ r.status = TStatus.passed)
         ∧ ((∀ m, inp.cleanup ≠ CleanEv.raises m) → new.length = 1)
         ∧ new.length ≤ 2)
    ∧ (∀ inputs : List (String × TestInput),
        (runTests inputs).tests_passed + (runTests inputs).tests_failed
          = (runTests inputs).test_results.length) := by
  constructor
  · intro st name inp
    rcases inp with ⟨se, ch, cl⟩
    cases se with
    | some msg =>
      exact ⟨[⟨name, .failed, some msg⟩], ⟨name, .failed, some msg⟩,
        by simp [test, recordFail], by simp, by simp [test, recordFail]; omega,
        by simp [test], by simp, by simp⟩
    | none =>
      cases ch with
      | raises m =>
        exact ⟨[⟨name, .failed, some m⟩], ⟨name, .failed, some m⟩,
          by simp [test, recordFail], by simp, by simp [test, recordFail]; omega,
          by simp [test], by simp, by simp⟩
      | ok b =>
        cases b with
        | false =>
          exact ⟨[⟨name, .failed, some "Check function failed"⟩],
            ⟨name, .failed, some "Check function failed"⟩,
            by simp [test, recordFail], by simp,
            by simp [test, recordFail]; omega,
            by simp [test], by simp, by simp⟩
        | true =>
          cases cl with
          | raises m =>
            refine ⟨[⟨name, .passed, none⟩, ⟨name, .failed, some m⟩],
              ⟨name, .failed, some m⟩,
              by simp [test, recordFail, recordPass], by simp,
              by simp [test, recordFail, recordPass]; omega,
              by simp [test], ?_, by simp⟩
            intro hno
            exact absurd rfl (hno m)
          | noCleanup =>
            exact ⟨[⟨name, .passed, none⟩], ⟨name, .passed, none⟩,
              by simp [test, recordPass], by simp,
              by simp [test, recordPass]; omega,
              by simp [test], by simp, by simp⟩
          | ok =>
            exact ⟨[⟨name, .passed, none⟩], ⟨name, .passed, none⟩,
              by simp [test, recordPass], by simp,
              by simp [test, recordPass]; omega,
              by simp [test], by simp, by simp⟩
      | noCheck =>
        cases cl with
        | raises m =>
          refine ⟨[⟨name, .passed, none⟩, ⟨name, .failed, some m⟩],
            ⟨name, .failed, some m⟩,
            by simp [test, recordFail, recordPass], by simp,
            by simp [test, recordFail, recordPass]; omega,
            by simp [test], ?_, by simp⟩
          intro hno
          exact absurd rfl (hno m)
        | noCleanup =>
          exact ⟨[⟨name, .passed, none⟩], ⟨name, .passed, none⟩,
            by simp [test, recordPass], by simp,
            by simp [test, recordPass]; omega,
            by simp [test], by simp, by simp⟩
        | ok =>
          exact ⟨[⟨name, .passed, none⟩], ⟨name, .passed, none⟩,
            by simp [test, recordPass], by simp,
            by simp [test, recordPass]; omega,
            by simp [test], by simp, by simp⟩
  · have step : ∀ (st : TesterState) (name : String) (inp : TestInput),
        st.tests_passed + st.tests_failed = st.test_results.length →
        (test st name inp).2.tests_passed + (test st name inp).2.tests_failed
          = (test st name inp).2.test_results.length := by
      intro st name inp h
      rcases inp with ⟨se, ch, cl⟩
      cases se with
      | some msg => simp [test, recordFail]; omega
      | none =>
        cases ch with
        | raises m => simp [test, recordFail]; omega
        | noCheck =>
          cases cl <;> simp [test, recordFail, recordPass] <;> omega
        | ok b =>
          cases b with
          | false => simp [test, recordFail]; omega
          | true => cases cl <;> simp [test, recordFail, recordPass] <;> omega
    have main : ∀ (l : List (String × TestInput)) (st : TesterState),
        st.tests_passed + st.tests_failed = st.test_results.length →
        (l.foldl (fun st p => (test st p.1 p.2).2) st).tests_passed
            + (l.foldl (fun st p => (test st p.1 p.2).2) st).tests_failed
          = (l.foldl (fun st p => (test st p.1 p.2).2) st).test_results.length := by
      intro l
      induction l with
      | nil => intro st h; exact h
      | cons p ps ih => intro st h; exact ih _ (step st p.1 p.2 h)
    exact fun inputs => main inputs ⟨0, 0, []⟩ rfl

/-- C10 witness: the anatomy theorem evaluated on a concrete passing
call. -/
theorem c10_witness :
    ∃ (new : List TestRecord) (r : TestRecord),
      (test ⟨0, 0, []⟩ "Undo" ⟨none, .noCheck, .noCleanup⟩).2.test_results
          = ([] : List TestRecord) ++ new
      ∧ new.getLast? = some r
      ∧ (test ⟨0, 0, []⟩ "Undo" ⟨none, .noCheck, .noCleanup⟩).2.tests_passed
            + (test ⟨0, 0, []⟩ "Undo" ⟨none, .noCheck, .noCleanup⟩).2.tests_failed
          = 0 + 0 + new.length
      ∧ ((test ⟨0, 0, []⟩ "Undo" ⟨none, .noCheck, .noCleanup⟩).1 = true ↔
          r.status = TStatus.passed)
      ∧ ((∀ m, TestInput.cleanup ⟨none, .noCheck, .noCleanup⟩ ≠ CleanEv.raises m) →
          new.length = 1)
      ∧ new.length ≤ 2 :=
  c10_amended.1 ⟨0, 0, []⟩ "Undo" ⟨none, .noCheck, .noCleanup⟩

/-- The environment determining one run of `run_all_tests`
(src/test_ableton_mcp.py lines 89-370): the outcome of each `test` call
(indexed by call order), and the data-dependent guards the run reads
from direct `send_command` responses: whether the loaded track reported
any device (`if devices:`), whether it reported more than one device
parameter (`if len(params) > 1:`), whether there are return tracks
(`if return_count > 0:`), and the session track counts that size the
cleanup loop. -/
structure RunCfg where
  env : Nat → TestInput
  devicesPresent : Bool
  manyParams : Bool
  returnsPresent : Bool
  initialTrackCount : Nat
  currentTrackCount : Nat

/-- One `self.test(...)` call inside `run_all_tests`, threading the call
counter, the tester state and the trace of executed test names. -/
def runStep (cfg : RunCfg) (name : String)
    (s : Nat × TesterState × List String) : Nat × TesterState × List String :=
  (s.1 + 1, (test s.2.1 name (cfg.env s.1)).2, s.2.2 ++ [name])

/-- `tracks_to_delete = current_track_count - initial_track_count`
(Python's negative range is empty, matching Nat subtraction). -/
def tracksToDelete (cfg : RunCfg) : Nat :=
  cfg.currentTrackCount - cfg.initialTrackCount

/-- The f-string name of one cleanup deletion test:
`f"Delete test track \x7btrack_idx\x7d"` with
`track_idx = current_track_count - 1 - i`. -/
def deleteName (cfg : RunCfg) (i : Nat) : String :=
  "Delete test track " ++ toString (cfg.currentTrackCount - 1 - i)

/-- The cleanup loop
`for i in range(tracks_to_delete): self.test(f"Delete test track ...")`. -/
def cleanupSteps (cfg : RunCfg) (s : Nat × TesterState × List String) :
    Nat × TesterState × List String :=
  (List.range (tracksToDelete cfg)).foldl
    (fun s i => runStep cfg (deleteName cfg i) s) s

/-- `run_all_tests` (src/test_ableton_mcp.py lines 89-370) as the
sequence of its `self.test(...)` calls: the Connection test first, whose
failure aborts the run (`return`) before any other test; then the fixed
straight-line sequence, with the device tests guarded by `if devices:`,
the parameter test additionally by `if len(params) > 1:`, the send test
by `if return_count > 0:`, and the cleanup deletions at the end.  Direct
`send_command` calls (session info, track info, device parameters, return
tracks) touch no test state and are abstracted into the `RunCfg` guards.
Returns the final tester state and the names of the executed tests in
order. -/
def runAllTests (cfg : RunCfg) : TesterState × List String :=
  match test ⟨0, 0, []⟩ "Connection" (cfg.env 0) with
  | (false, st) => (st, ["Connection"])
  | (true, st) =>
    let s : Nat × TesterState × List String := (1, st, ["Connection"])
    let s := runStep cfg "Get session info" s
    let s := runStep cfg "Get song position" s
    let s := runStep cfg "Start playback" s
    let s := runStep cfg "Stop playback" s
    let s := runStep cfg "Set tempo" s
    let s := runStep cfg "Create MIDI track" s
    let s := runStep cfg "Create audio track" s
    let s := runStep cfg "Set track name" s
    let s := runStep cfg "Get track info" s
    let s := runStep cfg "Set track volume" s
    let s := runStep cfg "Set track pan" s
    let s := runStep cfg "Set track mute" s
    let s := runStep cfg "Set track solo" s
    let s := runStep cfg "Set track arm" s
    let s := runStep cfg "Get track routing" s
    let s := runStep cfg "Duplicate track" s
    let s := runStep cfg "Create clip" s
    let s := runStep cfg "Add notes to clip" s
    let s := runStep cfg "Get clip notes" s
    let s := runStep cfg "Set clip name" s
    let s := runStep cfg "Set clip loop" s
    let s := runStep cfg "Duplicate clip" s
    let s := runStep cfg "Remove notes from clip" s
    let s := runStep cfg "Replace notes in clip" s
    let s := runStep cfg "Fire clip" s
    let s := runStep cfg "Stop clip" s
    let s := runStep cfg "Delete clip" s
    let s := runStep cfg "Load instrument" s
    let s := if cfg.devicesPresent then
        let s₁ := runStep cfg "Get device parameters" s
        let s₂ := if cfg.manyParams then runStep cfg "Set device parameter" s₁
                  else s₁
        let s₃ := runStep cfg "Set device enabled" s₂
        let s₄ := runStep cfg "Set device enabled (re-enable)" s₃
        runStep cfg "Delete device" s₄
      else s
    let s := runStep cfg "Get scenes" s
    let s := runStep cfg "Create scene" s
    let s := runStep cfg "Set scene name" s
    let s := runStep cfg "Fire scene" s
    let s := runStep cfg "Stop all clips" s
    let s := runStep cfg "Duplicate scene" s
    let s := runStep cfg "Delete scene" s
    let s := runStep cfg "Delete scene" s
    let s := runStep cfg "Get master track info" s
    let s := runStep cfg "Set master volume" s
    let s := runStep cfg "Get return tracks" s
    let s := if cfg.returnsPresent then runStep cfg "Set track send" s else s
    let s := runStep cfg "Get browser tree" s
    let s := runStep cfg "Get browser items at path" s
    let s := runStep cfg "Undo" s
    let s := runStep cfg "Redo" s
    let s := cleanupSteps cfg s
    (s.2.1, s.2.2)

/-- The names of the tests `run_all_tests` executes after a successful
Connection test, in order, as a function of the run's guards. -/
def scheduleNames (cfg : RunCfg) : List String :=
  ["Get session info", "Get song position", "Start playback", "Stop playback",
   "Set tempo", "Create MIDI track", "Create audio track", "Set track name",
   "Get track info", "Set track volume", "Set track pan", "Set track mute",
   "Set track solo", "Set track arm", "Get track routing", "Duplicate track",
   "Create clip", "Add notes to clip", "Get clip notes", "Set clip name",
   "Set clip loop", "Duplicate clip", "Remove notes from clip",
   "Replace notes in clip", "Fire clip", "Stop clip", "Delete clip",
   "Load instrument"]
  ++ (if cfg.devicesPresent then
        ["Get device parameters"]
        ++ (if cfg.manyParams then ["Set device parameter"] else [])
        ++ ["Set device enabled", "Set device enabled (re-enable)",
            "Delete device"]
      else [])
  ++ ["Get scenes", "Create scene", "Set scene name", "Fire scene",
      "Stop all clips", "Duplicate scene", "Delete scene", "Delete scene",
      "Get master track info", "Set master volume", "Get return tracks"]
  ++ (if cfg.returnsPresent then ["Set track send"] else [])
  ++ ["Get browser tree", "Get browser items at path", "Undo", "Redo"]
  ++ (List.range (tracksToDelete cfg)).map (deleteName cfg)

/-- The cleanup loop executes exactly the deletion tests, in index
order. -/
theorem cleanupSteps_trace (cfg : RunCfg) (s : Nat × TesterState × List String) :
    (cleanupSteps cfg s).2.2
      = s.2.2 ++ (List.range (tracksToDelete cfg)).map (deleteName cfg) := by
  have main : ∀ (is : List Nat) (s : Nat × TesterState × List String),
      ((is.foldl (fun s i => runStep cfg (deleteName cfg i) s) s).2.2)
        = s.2.2 ++ is.map (deleteName cfg) := by
    intro is
    induction is with
    | nil => intro s; simp
    | cons i is ih =>
      intro s
      rw [List.foldl_cons, ih]
      simp [runStep]
  exact main _ s

/-- If the Connection test passes, the executed tests are exactly
`Connection` followed by the schedule - whatever the individual test
outcomes are: no later failure aborts the run or changes which tests
execute. -/
theorem runAllTests_trace (cfg : RunCfg)
    (hconn : (test ⟨0, 0, []⟩ "Connection" (cfg.env 0)).1 = true) :
    (runAllTests cfg).2 = "Connection" :: scheduleNames cfg := by
  rcases htest : test ⟨0, 0, []⟩ "Connection" (cfg.env 0) with ⟨b, st⟩
  rw [htest] at hconn
  simp only at hconn
  subst hconn
  rcases cfg with ⟨env, dev, many, rets, init, cur⟩
  simp only [runAllTests, htest]
  cases dev <;> cases many <;> cases rets <;>
    simp [runStep, cleanupSteps_trace, scheduleNames]

/-- C8 (amended): if the initial Connection test fails, `run_all_tests`
returns immediately and no other test executes; if it passes, the full
fixed sequence of tests executes regardless of individual outcomes (a
failed test never aborts the run), with the device/parameter/return-send
tests included exactly when their data-dependent guards hold. -/
theorem c8_amended :
    (∀ (cfg : RunCfg) (st : TesterState),
        test ⟨0, 0, []⟩ "Connection" (cfg.env 0) = (false, st) →
        runAllTests cfg = (st, ["Connection"]))
    ∧ (∀ cfg : RunCfg,
        (test ⟨0, 0, []⟩ "Connection" (cfg.env 0)).1 = true →
        (runAllTests cfg).2 = "Connection" :: scheduleNames cfg) := by
  constructor
  · intro cfg st h
    simp only [runAllTests, h]
  · exact runAllTests_trace

/-- C8 (counterexample): when the very first (Connection) test fails,
`run_all_tests` executes no further test - the trace is just
`["Connection"]` although later tests such as `Start playback` were
scheduled - contradicting the claim that the failure of any single test
never prevents subsequent tests from executing. -/
theorem c8_counterexample :
    runAllTests
        ⟨fun k => if k = 0 then ⟨some "connection refused", .noCheck, .noCleanup⟩
                  else ⟨none, .noCheck, .noCleanup⟩,
         true, true, true, 4, 6⟩
      = (⟨0, 1, [⟨"Connection", .failed, some "connection refused"⟩]⟩,
         ["Connection"])
    ∧ ("Start playback" ∈ scheduleNames
        ⟨fun k => if k = 0 then ⟨some "connection refused", .noCheck, .noCleanup⟩
                  else ⟨none, .noCheck, .noCleanup⟩,
         true, true, true, 4, 6⟩) := by
  constructor
  · rfl
  · simp [scheduleNames]

/-- C8 witness: the amended theorem evaluated on a concrete failing
Connection run and on a concrete all-passing run with all guards true. -/
theorem c8_witness :
    runAllTests
        ⟨fun k => if k = 0 then ⟨some "connection refused", .noCheck, .noCleanup⟩
                  else ⟨none, .noCheck, .noCleanup⟩,
         false, false, false, 2, 2⟩
      = (⟨0, 1, [⟨"Connection", .failed, some "connection refused"⟩]⟩,
         ["Connection"])
    ∧ (runAllTests
        ⟨fun _ => ⟨none, .noCheck, .noCleanup⟩, true, true, true, 4, 6⟩).2
      = "Connection" :: scheduleNames
          ⟨fun _ => ⟨none, .noCheck, .noCleanup⟩, true, true, true, 4, 6⟩ :=
  ⟨c8_amended.1 _ _ rfl, c8_amended.2 _ rfl⟩
